import Mathlib

/-!
Formal model of `launchbox.py` (olemb/launchbox): the command enumerator
(`get_path`, `get_commands`) and the tab-completion cycler (`Completer`).

Python strings are modelled as lists of characters (`Str`), so that string
comparison (`<`, lexicographic by code point), prefix tests and sorting are
the corresponding executable operations on `List Char`.  Filesystem reads
(`os.path.isdir`, `os.listdir`, `os.access`) are modelled by a snapshot
record `FS` passed explicitly; the output of the shell invocation in
`get_path` (`echo $PATH`) and the home directory used by
`os.path.expanduser` are likewise explicit parameters.  The enumeration
performed by `get_commands()` inside `Completer._cycle` is passed to the
cycler as the explicit argument `env`.
-/

/-- A Python string: a list of characters.  Python compares strings
lexicographically by code point, which is the `List.Lex` linear order on
`List Char`. -/
abbrev Str := List Char

/-- The character list of a Lean string literal (used to write concrete
`Str` values). -/
def str (s : String) : Str := s.data

/-- Python `s.startswith(p)`: `p` is a prefix of `s`. -/
def startswith (s p : Str) : Bool := p.isPrefixOf s

/-- The whitespace characters removed by Python `str.strip()`. -/
def isPySpace (c : Char) : Bool :=
  c = ' ' || c = '\t' || c = '\n' || c = '\r' || c = '\x0b' || c = '\x0c'

/-- Python `s.strip()`: remove leading and trailing whitespace. -/
def strip (s : Str) : Str :=
  ((s.dropWhile isPySpace).reverse.dropWhile isPySpace).reverse

/-- Python `s.split(sep)` for a single-character separator: splits on every
occurrence, keeping empty groups (`"".split(sep) == [""]`). -/
def splitOnChar (sep : Char) : Str → List Str
  | [] => [[]]
  | c :: rest =>
      if c = sep then [] :: splitOnChar sep rest
      else
        match splitOnChar sep rest with
        | [] => [[c]]
        | g :: gs => (c :: g) :: gs

/-- Python `os.path.expanduser` for the forms relevant here: a lone `~` or a
`~/`-headed path is expanded to the home directory `home`.  A `~user` segment
would need the OS user database, which is outside the model; it is returned
unchanged (as Python itself does when that lookup fails).  Any other path is
returned unchanged. -/
def expanduser (home : Str) (p : Str) : Str :=
  if p = str "~" then home
  else if startswith p (str "~/") then home ++ p.drop 1
  else p

/-- Model of `get_path` (launchbox.py lines 33-38).  Running the shell and
reading its `echo $PATH` output is I/O; the captured output is the explicit
parameter `pathOutput`.  The function strips it, splits it on `:` and
expands `~` in each entry against `home`. -/
def get_path (pathOutput : Str) (home : Str) : List Str :=
  (splitOnChar ':' (strip pathOutput)).map (expanduser home)

/-- Snapshot of the filesystem facts read during one enumeration.
`isdir d` is `os.path.isdir(d)` (true when `d` names a directory, following
symlinks, false for missing paths); `listdir d` is `os.listdir(d)`;
`access f` is `os.access(f, os.X_OK)`; `isfile f` is `os.path.isfile(f)`
(regular file after following symlinks).  `isfile` is never read by the
code under verification and is carried only so that spec-level statements
about regular files can be expressed about the same snapshot. -/
structure FS where
  isdir : Str → Bool
  listdir : Str → List Str
  access : Str → Bool
  isfile : Str → Bool

/-- Python `os.path.join(d, name)` for the two-argument case. -/
def joinpath (d name : Str) : Str :=
  if startswith name (str "/") then name
  else if d = [] then name
  else if d.getLast? = some '/' then d ++ name
  else d ++ '/' :: name

/-- The inner loop of `get_commands` (lines 47-51) over one directory: the
entries of `dirname` whose joined path is not a directory and is
executable. -/
def dirCommands (fs : FS) (dirname : Str) : List Str :=
  (fs.listdir dirname).filter (fun command =>
    let filename := joinpath dirname command
    !fs.isdir filename && fs.access filename)

/-- The directories on which the loop of `get_commands` calls `os.listdir`:
every element of the path that passes the `isdir` test, one call per
occurrence. -/
def scannedDirs (fs : FS) (path : List Str) : List Str := path.filter fs.isdir

/-- Model of `get_commands` (lines 41-56), with the path list as parameter
(in the program it is `get_path()`).  Accumulating names into the Python
set `commands` and then `list(set(commands)); commands.sort()` is modelled
by deduplicating the concatenated scan results and sorting them by the
lexicographic order; on duplicate-free input the sorted result is unique,
so any correct sort models Python `list.sort`. -/
def get_commands (fs : FS) (path : List Str) : List Str :=
  List.insertionSort (· ≤ ·)
    ((path.flatMap (fun dirname =>
        if fs.isdir dirname then dirCommands fs dirname else [])).dedup)

/-- State of the `Completer` class (lines 65-99): the cached match list
(`self.commands`, `None` when stale), the cycle position (`self.current`, a
Python `int`), and the stored text (`self._text`). -/
structure Completer where
  commands : Option (List Str)
  current : Int
  text : Str
deriving DecidableEq, Repr

/-- The state built by `Completer.__init__` (lines 67-70). -/
def Completer.init : Completer :=
  { commands := none, current := -1, text := [] }

/-- Names visible in the body of `Completer.get_text` (line 72-73): the
parameter `self`, and the module-level bindings of launchbox.py.  No name
`text` is among them. -/
def getTextScope : List String :=
  ["self",
   "print_function", "os", "sys", "ArgumentParser", "RawTextHelpFormatter",
   "__author__", "__email__", "__license__", "__url__", "__doc__", "__name__",
   "DEFAULT_SHELL", "SHELL",
   "get_path", "get_commands", "run_command", "Completer", "center_window",
   "import_tk", "LauncherTk", "LauncherGtk2", "parse_args", "main"]

/-- Model of `Completer.get_text` (lines 72-73).  Its body is `return text`;
evaluating the free variable `text` looks it up in the enclosing scopes, and
succeeds only if some scope binds it — otherwise Python raises `NameError`.
(The `ok` branch records what a successful lookup of the stored text would
return; it is unreachable, since `text` is bound in no enclosing scope.) -/
def Completer.get_text (c : Completer) : Except String Str :=
  if "text" ∈ getTextScope then Except.ok c.text else Except.error "NameError"

/-- Model of `Completer.set_text` (lines 75-79): on a changed text, clear the
cached match list, reset the index to -1 and store the new text; otherwise do
nothing. -/
def Completer.set_text (c : Completer) (t : Str) : Completer :=
  if t ≠ c.text then { commands := none, current := -1, text := t } else c

/-- The `if self.commands is None` block of `Completer._cycle` (lines 82-86):
when the cache is stale, filter the enumerated commands `env` to those
starting with the stored text and reset the index to -1. -/
def Completer.recompute (env : List Str) (c : Completer) : Completer :=
  match c.commands with
  | none =>
      { commands := some (env.filter (fun cmd => startswith cmd c.text)),
        current := -1, text := c.text }
  | some _ => c

/-- Model of `Completer._cycle` (lines 81-93).  `env` is the list returned
by the `get_commands()` call on line 84.  On an empty match list the stored
text is returned unchanged; otherwise the index is advanced by `step` and
reduced modulo the list length (`%` on `Int` is Euclidean remainder, which
agrees with Python `%` for a positive modulus), and the entry at the new
index is returned. -/
def Completer.cycle (env : List Str) (c : Completer) (step : Int) :
    Str × Completer :=
  let c1 := c.recompute env
  let cmds := c1.commands.getD []
  if cmds.length = 0 then
    (c1.text, c1)
  else
    let cur := (c1.current + step) % (cmds.length : Int)
    (cmds.getD cur.toNat [], { c1 with current := cur })

/-- Model of `Completer.next` (lines 95-96). -/
def Completer.next (env : List Str) (c : Completer) : Str × Completer :=
  c.cycle env 1

/-- Model of `Completer.prev` (lines 98-99). -/
def Completer.prev (env : List Str) (c : Completer) : Str × Completer :=
  c.cycle env (-1)

/-- Outputs of a sequence of `_cycle(step)` calls (each `1` a `next()`, each
`-1` a `prev()`), threading the state, the enumeration held fixed. -/
def Completer.run (env : List Str) : Completer → List Int → List Str
  | _, [] => []
  | c, s :: rest => (c.cycle env s).1 :: Completer.run env (c.cycle env s).2 rest

/-- The state after a sequence of `_cycle(step)` calls, the enumeration held
fixed. -/
def Completer.runState (env : List Str) : Completer → List Int → Completer
  | c, [] => c
  | c, s :: rest => Completer.runState env (c.cycle env s).2 rest

/-- Concrete filesystem snapshot of the spec scenario: a single directory
`/bin` holding executables `ls`, `ln`, `cat` and a non-executable regular
file `readme`. -/
def fsBin : FS where
  isdir := fun d => d = str "/bin"
  listdir := fun d =>
    if d = str "/bin" then [str "ls", str "ln", str "cat", str "readme"] else []
  access := fun f =>
    f = str "/bin/ls" || f = str "/bin/ln" || f = str "/bin/cat"
  isfile := fun f =>
    f = str "/bin/ls" || f = str "/bin/ln" || f = str "/bin/cat" ||
    f = str "/bin/readme"

/-- Concrete filesystem snapshot with a single directory `/bin` holding one
entry `mypipe` that is executable but is not a regular file and not a
directory (e.g. a FIFO with its execute bits set). -/
def fsFifo : FS where
  isdir := fun d => d = str "/bin"
  listdir := fun d => if d = str "/bin" then [str "mypipe"] else []
  access := fun f => f = str "/bin/mypipe"
  isfile := fun _ => false

/-! ## Helper lemmas about the cycler -/

/-- Recomputation is idempotent, so running `_cycle` on an already
recomputed state gives the same call result. -/
theorem cycle_recompute (env : List Str) (c : Completer) (s : Int) :
    c.cycle env s = (c.recompute env).cycle env s := by
  cases h : c.commands with
  | none => simp [Completer.cycle, Completer.recompute, h]
  | some l => simp [Completer.cycle, Completer.recompute, h]

/-- A `_cycle` call on a state whose cached match list is empty returns the
stored text and does not change the state. -/
theorem cycle_cached_empty (env : List Str) (c : Completer) (s : Int)
    (h : c.commands = some []) : c.cycle env s = (c.text, c) := by
  simp [Completer.cycle, Completer.recompute, h]

/-- A `_cycle` call on a state with a non-empty cached match list advances
the index by `step` modulo the length and returns the entry there. -/
theorem cycle_cached_nonempty (env : List Str) (l : List Str) (i : Int)
    (t : Str) (s : Int) (hne : l ≠ []) :
    Completer.cycle env ⟨some l, i, t⟩ s
      = (l.getD ((i + s) % (l.length : Int)).toNat [],
         ⟨some l, (i + s) % (l.length : Int), t⟩) := by
  have hn : l.length ≠ 0 := fun h => hne (List.eq_nil_of_length_eq_zero h)
  simp [Completer.cycle, Completer.recompute, hn]

/-! ## C9: the accessor Completer.get_text -/

/-- C9: for every Completer state, `get_text` fails with a `NameError`
(its body reads the name `text`, which no enclosing scope binds), so the
stored text can never be read back through it. -/
theorem get_text_always_name_error (c : Completer) :
    c.get_text = Except.error "NameError" := by
  have h : ("text" : String) ∉ getTextScope := by decide
  simp [Completer.get_text, h]

/-! ## C7: set_text is idempotent -/

/-- C7: calling `set_text` twice in a row with the same value equals calling
it once — the second call leaves the whole state (cached match list, cycle
index, stored text) unchanged — and hence any following `_cycle` call
(`next()` or `prev()`) behaves exactly as after the single call; in
particular it does not trigger an extra enumeration. -/
theorem set_text_idempotent (c : Completer) (t : Str) :
    (c.set_text t).set_text t = c.set_text t
      ∧ ∀ env s, ((c.set_text t).set_text t).cycle env s
          = (c.set_text t).cycle env s := by
  have h : (c.set_text t).set_text t = c.set_text t := by
    by_cases ht : t = c.text
    · simp [Completer.set_text, ht]
    · simp [Completer.set_text, ht]
  exact ⟨h, fun env s => by rw [h]⟩

/-! ## C3: get_commands is sorted and duplicate-free -/

/-- C3: for every filesystem snapshot and search path, the sequence returned
by `get_commands` is sorted lexicographically and contains no duplicate
name. -/
theorem get_commands_sorted_nodup (fs : FS) (path : List Str) :
    List.Sorted (· ≤ ·) (get_commands fs path) ∧ (get_commands fs path).Nodup := by
  refine ⟨List.sorted_insertionSort _ _, ?_⟩
  exact ((List.perm_insertionSort _ _).nodup_iff).mpr (List.nodup_dedup _)

/-! ## C6: the /bin scenario from the spec -/

/-- C6: on the snapshot `fsBin` (directory `/bin` with executables `ls`,
`ln`, `cat` and non-executable `readme`), `get_commands` returns exactly
`["cat", "ln", "ls"]`; after `set_text "l"` on a fresh Completer, the calls
return `next() = "ln"`, `next() = "ls"`, `next() = "ln"` (wraparound) and
then `prev() = "ls"`. -/
theorem bin_scenario :
    get_commands fsBin [str "/bin"] = [str "cat", str "ln", str "ls"]
      ∧ (let env := get_commands fsBin [str "/bin"]
         let c1 := Completer.init.set_text (str "l")
         let r1 := c1.next env
         let r2 := r1.2.next env
         let r3 := r2.2.next env
         let r4 := r3.2.prev env
         r1.1 = str "ln" ∧ r2.1 = str "ls" ∧ r3.1 = str "ln" ∧ r4.1 = str "ls") := by
  constructor
  · decide
  · decide

/-! ## C2: empty match list echoes the stored text forever -/

/-- Every `_cycle` call from a state whose cached match list is empty
returns the stored text, for any sequence of steps. -/
theorem run_cached_empty (env : List Str) (i : Int) (t : Str)
    (steps : List Int) :
    Completer.run env ⟨some [], i, t⟩ steps = steps.map (fun _ => t) := by
  induction steps with
  | nil => rfl
  | cons s rest ih =>
      simp [Completer.run, cycle_cached_empty env ⟨some [], i, t⟩ s rfl, ih]

/-- C2: when no enumerated command starts with the stored text (in
particular when the enumeration is empty), every `next()` (`step = 1`) and
`prev()` (`step = -1`) call returns the stored text verbatim, however many
times and in whatever order they are repeated. -/
theorem cycle_no_match_echoes_text (env : List Str) (c : Completer)
    (steps : List Int) (hc : c.commands = none)
    (hfilter : env.filter (fun cmd => startswith cmd c.text) = []) :
    ∀ r ∈ Completer.run env c steps, r = c.text := by
  cases steps with
  | nil => intro r hr; simp [Completer.run] at hr
  | cons s rest =>
      have hrec : c.recompute env = ⟨some [], -1, c.text⟩ := by
        simp [Completer.recompute, hc, hfilter]
      have hcyc : c.cycle env s = (c.text, ⟨some [], -1, c.text⟩) := by
        rw [cycle_recompute, hrec, cycle_cached_empty env _ s rfl]
      intro r hr
      simp [Completer.run, hcyc, run_cached_empty, List.mem_map] at hr
      rcases hr with h | ⟨-, rfl⟩
      · exact h
      · rfl

/-- Witness for C2: with one enumerated command `ls` and stored text `zzz`
(no match), three calls — next, next, prev — all return `zzz`. -/
theorem cycle_no_match_echoes_text_witness :
    (Completer.mk none (-1) (str "zzz")).commands = none
      ∧ [str "ls"].filter
          (fun cmd => startswith cmd (Completer.mk none (-1) (str "zzz")).text) = []
      ∧ ∀ r ∈ Completer.run [str "ls"] (Completer.mk none (-1) (str "zzz")) [1, 1, -1],
          r = (Completer.mk none (-1) (str "zzz")).text :=
  ⟨rfl, by decide,
   cycle_no_match_echoes_text [str "ls"] (Completer.mk none (-1) (str "zzz"))
     [1, 1, -1] rfl (by decide)⟩

/-! ## C1: first next()/prev() after a fresh recompute -/

/-- C1 is refuted on the code: with enumerated commands `["a", "b"]` and
empty stored text the match list is `["a", "b"]`, and the first `prev()`
call on the fresh state returns `"a"` — the Python index arithmetic gives
`(-1 - 1) % 2 = 0` — not the last element `"b"`. -/
theorem first_prev_not_last :
    (let env := [str "a", str "b"]
     let c : Completer := ⟨none, -1, []⟩
     let l := env.filter (fun cmd => startswith cmd c.text)
     l = [str "a", str "b"]
       ∧ (c.prev env).1 = str "a"
       ∧ l.getD (l.length - 1) [] = str "b"
       ∧ str "a" ≠ str "b") := by
  decide

/-- C1 amended: on a state whose match list is freshly recomputed (cache
stale, index unset) and non-empty, the first `next()` returns the first
element (index 0), and the first `prev()` returns the element at Euclidean
index `(-2) mod n` — the second-to-last element when `n ≥ 2`, the sole
element when `n = 1` — not in general the last element. -/
theorem first_cycle_from_fresh (env : List Str) (c : Completer) (l : List Str)
    (hc : c.commands = none)
    (hl : env.filter (fun cmd => startswith cmd c.text) = l)
    (hne : l ≠ []) :
    (c.next env).1 = l.getD 0 []
      ∧ (c.prev env).1 = l.getD (((-2 : Int) % (l.length : Int)).toNat) [] := by
  have hrec : c.recompute env = ⟨some l, -1, c.text⟩ := by
    simp [Completer.recompute, hc, hl]
  constructor
  · rw [Completer.next, cycle_recompute, hrec,
      cycle_cached_nonempty env l (-1) c.text 1 hne]
    norm_num
  · rw [Completer.prev, cycle_recompute, hrec,
      cycle_cached_nonempty env l (-1) c.text (-1) hne]
    norm_num

/-- Witness for C1 (amended): concrete instance with enumerated commands
`["a", "b"]` and empty stored text. -/
theorem first_cycle_from_fresh_witness :
    ((Completer.mk none (-1) []).next [str "a", str "b"]).1
        = [str "a", str "b"].getD 0 []
      ∧ ((Completer.mk none (-1) []).prev [str "a", str "b"]).1
          = [str "a", str "b"].getD
              (((-2 : Int) % (([str "a", str "b"] : List Str).length : Int)).toNat) [] :=
  first_cycle_from_fresh [str "a", str "b"] (Completer.mk none (-1) [])
    [str "a", str "b"] rfl (by decide) (by decide)

/-! ## C10: index bounds and the empty-cache no-op -/

/-- Bounds for the cycle index after a `_cycle` call whose (recomputed)
match list is non-empty. -/
theorem cycle_bounds_aux (env : List Str) (c : Completer) (s : Int)
    (l : List Str) (hl : (c.recompute env).commands = some l) (hne : l ≠ []) :
    0 ≤ ((c.cycle env s).2).current
      ∧ ((c.cycle env s).2).current < (l.length : Int) := by
  have hn : l.length ≠ 0 := fun h => hne (List.eq_nil_of_length_eq_zero h)
  have hn0 : (l.length : Int) ≠ 0 := by exact_mod_cast hn
  have hpos : (0 : Int) < (l.length : Int) := by
    exact_mod_cast Nat.pos_of_ne_zero hn
  rw [cycle_recompute]
  rcases h1 : c.recompute env with ⟨cs, i, t⟩
  rw [h1] at hl
  simp only at hl
  subst hl
  rw [cycle_cached_nonempty env l i t s hne]
  exact ⟨Int.emod_nonneg _ hn0, Int.emod_lt_of_pos _ hpos⟩

/-- C10: whenever the match list used by a `next()` or `prev()` call is
non-empty, the resulting cycle index lies in `[0, len)`; and a call on a
state whose cached match list is empty returns the stored text and leaves
the whole state unchanged. -/
theorem cycle_index_invariant (env : List Str) (c : Completer) :
    (∀ l, (c.recompute env).commands = some l → l ≠ [] →
        (0 ≤ ((c.next env).2).current
          ∧ ((c.next env).2).current < (l.length : Int)
          ∧ 0 ≤ ((c.prev env).2).current
          ∧ ((c.prev env).2).current < (l.length : Int)))
      ∧ (c.commands = some [] →
          c.next env = (c.text, c) ∧ c.prev env = (c.text, c)) := by
  constructor
  · intro l hl hne
    obtain ⟨h1, h2⟩ := cycle_bounds_aux env c 1 l hl hne
    obtain ⟨h3, h4⟩ := cycle_bounds_aux env c (-1) l hl hne
    exact ⟨h1, h2, h3, h4⟩
  · intro h
    exact ⟨cycle_cached_empty env c 1 h, cycle_cached_empty env c (-1) h⟩

/-- Witness for C10: both branches at concrete states — a fresh state whose
match list recomputes to `["ls"]`, and a state with an empty cached list. -/
theorem cycle_index_invariant_witness :
    ((Completer.init.recompute [str "ls"]).commands = some [str "ls"]
      ∧ (0 ≤ ((Completer.init.next [str "ls"]).2).current
          ∧ ((Completer.init.next [str "ls"]).2).current
              < (([str "ls"] : List Str).length : Int)
          ∧ 0 ≤ ((Completer.init.prev [str "ls"]).2).current
          ∧ ((Completer.init.prev [str "ls"]).2).current
              < (([str "ls"] : List Str).length : Int)))
      ∧ ((Completer.mk (some []) 5 (str "x")).commands = some []
          ∧ (Completer.mk (some []) 5 (str "x")).next [str "ls"]
              = ((Completer.mk (some []) 5 (str "x")).text,
                 Completer.mk (some []) 5 (str "x"))
          ∧ (Completer.mk (some []) 5 (str "x")).prev [str "ls"]
              = ((Completer.mk (some []) 5 (str "x")).text,
                 Completer.mk (some []) 5 (str "x"))) :=
  ⟨⟨by decide,
    (cycle_index_invariant [str "ls"] Completer.init).1 [str "ls"]
      (by decide) (by decide)⟩,
   ⟨rfl, (cycle_index_invariant [str "ls"] (Completer.mk (some []) 5 (str "x"))).2 rfl⟩⟩

/-! ## C5: cycling arithmetic -/

/-- Output of the `next()` call that follows `k` earlier `next()` calls,
starting from a state with a non-empty cached match list and index `i`: the
entry at Euclidean index `(i + 1 + k) mod n`. -/
theorem nth_next_output_cached (env : List Str) (l : List Str) (t : Str)
    (hne : l ≠ []) :
    ∀ (k : Nat) (i : Int),
      ((Completer.runState env ⟨some l, i, t⟩ (List.replicate k 1)).cycle env 1).1
        = l.getD ((i + 1 + k) % (l.length : Int)).toNat [] := by
  intro k
  induction k with
  | zero =>
      intro i
      rw [List.replicate, Completer.runState,
        cycle_cached_nonempty env l i t 1 hne]
      norm_num
  | succ k ih =>
      intro i
      rw [List.replicate, Completer.runState,
        cycle_cached_nonempty env l i t 1 hne]
      rw [ih ((i + 1) % (l.length : Int))]
      have harith : ((i + 1) % (l.length : Int) + 1 + (k : Int))
            % (l.length : Int) = (i + 1 + ((k : Nat) + 1 : Nat)) % (l.length : Int) := by
        calc ((i + 1) % (l.length : Int) + 1 + (k : Int)) % (l.length : Int)
            = ((i + 1) % (l.length : Int) + (1 + (k : Int))) % (l.length : Int) := by
              ring_nf
          _ = ((i + 1) + (1 + (k : Int))) % (l.length : Int) :=
              Int.emod_add_emod _ _ _
          _ = (i + 1 + ((k : Nat) + 1 : Nat)) % (l.length : Int) := by
              push_cast
              ring_nf
      rw [harith]

/-- Output of the `(k+1)`-th `next()` call on a fresh state (stale cache)
whose match list recomputes to the non-empty `l`: the entry at index
`k mod n`. -/
theorem nth_next_output (env : List Str) (c : Completer) (l : List Str)
    (hc : c.commands = none)
    (hl : env.filter (fun cmd => startswith cmd c.text) = l)
    (hne : l ≠ []) (k : Nat) :
    ((Completer.runState env c (List.replicate k 1)).cycle env 1).1
      = l.getD (k % l.length) [] := by
  have hrec : c.recompute env = ⟨some l, -1, c.text⟩ := by
    simp [Completer.recompute, hc, hl]
  have hcast : ∀ m : Nat, ((m % l.length : Nat) : Int)
      = (m : Int) % (l.length : Int) := by
    intro m
    push_cast
    rfl
  cases k with
  | zero =>
      rw [List.replicate, Completer.runState, cycle_recompute, hrec,
        cycle_cached_nonempty env l (-1) c.text 1 hne]
      norm_num
  | succ k =>
      have hfirst : (c.cycle env 1).2 = ⟨some l, 0, c.text⟩ := by
        rw [cycle_recompute, hrec, cycle_cached_nonempty env l (-1) c.text 1 hne]
        norm_num
      rw [List.replicate, Completer.runState, hfirst,
        nth_next_output_cached env l c.text hne k 0]
      congr 1
      have h1 : ((0 : Int) + 1 + (k : Int)) = (((k + 1 : Nat) : Nat) : Int) := by
        push_cast
        ring
      rw [h1, ← hcast (k + 1)]
      exact Int.toNat_natCast _

/-- C5 is refuted on the code: with match list `["a", "b"]` (`n = 2`) and
the enumeration held fixed, the two `next()` calls from the fresh state
return `"a"` then `"b"`: the `n`-th call yields the last element, not the
first. -/
theorem n_next_calls_not_first :
    (let env := [str "a", str "b"]
     let c : Completer := ⟨none, -1, []⟩
     env.filter (fun cmd => startswith cmd c.text) = [str "a", str "b"]
       ∧ Completer.run env c [1, 1] = [str "a", str "b"]
       ∧ str "b" ≠ str "a") := by
  decide

/-- C5 amended: with the enumeration held fixed and a freshly-reset state
whose match list recomputes to the non-empty `l` (`n = l.length`): the
`n`-th `next()` call returns the last element `l[n-1]` (it is the
`(n+1)`-th call that returns to the first element `l[0]`); and from any
index `0 ≤ i < n`, `prev()` then `next()` — or `next()` then `prev()` —
returns the element at the starting index `i`. -/
theorem cycle_period (env : List Str) (c : Completer) (l : List Str)
    (hc : c.commands = none)
    (hl : env.filter (fun cmd => startswith cmd c.text) = l)
    (hne : l ≠ []) :
    ((Completer.runState env c (List.replicate (l.length - 1) 1)).cycle env 1).1
        = l.getD (l.length - 1) []
      ∧ ((Completer.runState env c (List.replicate l.length 1)).cycle env 1).1
          = l.getD 0 []
      ∧ ∀ (i : Nat) (t : Str), i < l.length →
          ((((⟨some l, (i : Int), t⟩ : Completer).prev env).2).next env).1
              = l.getD i []
            ∧ ((((⟨some l, (i : Int), t⟩ : Completer).next env).2).prev env).1
              = l.getD i [] := by
  have hn : l.length ≠ 0 := fun h => hne (List.eq_nil_of_length_eq_zero h)
  refine ⟨?_, ?_, ?_⟩
  · rw [nth_next_output env c l hc hl hne (l.length - 1)]
    congr 1
    exact Nat.mod_eq_of_lt (by omega)
  · rw [nth_next_output env c l hc hl hne l.length]
    congr 1
    exact Nat.mod_self _
  · intro i t hi
    have hi0 : (0 : Int) ≤ (i : Int) := Int.natCast_nonneg i
    have hilt : (i : Int) < (l.length : Int) := by exact_mod_cast hi
    constructor
    · rw [Completer.prev, cycle_cached_nonempty env l i t (-1) hne,
        Completer.next, cycle_cached_nonempty env l _ t 1 hne]
      have h2 : (((i : Int) + -1) % (l.length : Int) + 1) % (l.length : Int) = (i : Int) := by
        calc (((i : Int) + -1) % (l.length : Int) + 1) % (l.length : Int)
            = (((i : Int) + -1) + 1) % (l.length : Int) := Int.emod_add_emod _ _ _
          _ = ((i : Int)) % (l.length : Int) := by ring_nf
          _ = (i : Int) := Int.emod_eq_of_lt hi0 hilt
      rw [h2, Int.toNat_natCast]
    · rw [Completer.next, cycle_cached_nonempty env l i t 1 hne,
        Completer.prev, cycle_cached_nonempty env l _ t (-1) hne]
      have h2 : (((i : Int) + 1) % (l.length : Int) + -1) % (l.length : Int) = (i : Int) := by
        calc (((i : Int) + 1) % (l.length : Int) + -1) % (l.length : Int)
            = (((i : Int) + 1) + -1) % (l.length : Int) := Int.emod_add_emod _ _ _
          _ = ((i : Int)) % (l.length : Int) := by ring_nf
          _ = (i : Int) := Int.emod_eq_of_lt hi0 hilt
      rw [h2, Int.toNat_natCast]

/-- Witness for C5 (amended): concrete instance with match list
`["a", "b"]`. -/
theorem cycle_period_witness :
    ((Completer.runState [str "a", str "b"] (Completer.mk none (-1) [])
          (List.replicate (([str "a", str "b"] : List Str).length - 1) 1)).cycle
          [str "a", str "b"] 1).1
        = ([str "a", str "b"] : List Str).getD
            (([str "a", str "b"] : List Str).length - 1) []
      ∧ ((Completer.runState [str "a", str "b"] (Completer.mk none (-1) [])
            (List.replicate ([str "a", str "b"] : List Str).length 1)).cycle
            [str "a", str "b"] 1).1
          = ([str "a", str "b"] : List Str).getD 0 []
      ∧ ∀ (i : Nat) (t : Str), i < ([str "a", str "b"] : List Str).length →
          ((((⟨some [str "a", str "b"], (i : Int), t⟩ : Completer).prev
              [str "a", str "b"]).2).next [str "a", str "b"]).1
              = ([str "a", str "b"] : List Str).getD i []
            ∧ ((((⟨some [str "a", str "b"], (i : Int), t⟩ : Completer).next
                [str "a", str "b"]).2).prev [str "a", str "b"]).1
              = ([str "a", str "b"] : List Str).getD i [] :=
  cycle_period [str "a", str "b"] (Completer.mk none (-1) [])
    [str "a", str "b"] rfl (by decide) (by decide)

/-! ## C4: what get_commands guarantees about returned names -/

/-- Membership in the result of `get_commands`: the name was collected from
some directory of the path that passed the `isdir` test. -/
theorem mem_get_commands (fs : FS) (path : List Str) (name : Str) :
    name ∈ get_commands fs path
      ↔ ∃ d, d ∈ path ∧ fs.isdir d = true ∧ name ∈ dirCommands fs d := by
  constructor
  · intro h
    have h1 := (List.perm_insertionSort (· ≤ ·) _).mem_iff.mp h
    rw [List.mem_dedup, List.mem_flatMap] at h1
    obtain ⟨d, hd, hmem⟩ := h1
    by_cases hdir : fs.isdir d = true
    · exact ⟨d, hd, hdir, by simpa [hdir] using hmem⟩
    · simp [hdir] at hmem
  · rintro ⟨d, hd, hdir, hmem⟩
    apply (List.perm_insertionSort (· ≤ ·) _).mem_iff.mpr
    rw [List.mem_dedup, List.mem_flatMap]
    exact ⟨d, hd, by simpa [hdir] using hmem⟩

/-- C4 is refuted on the code: on the snapshot `fsFifo`, the entry `mypipe`
of `/bin` is executable but is not a regular file (say, a FIFO with its
execute bits set); `get_commands` returns it anyway, because the code only
checks `not os.path.isdir` and `os.access(..., X_OK)`, never
`os.path.isfile`. -/
theorem get_commands_accepts_non_regular :
    str "mypipe" ∈ get_commands fsFifo [str "/bin"]
      ∧ (∀ d ∈ ([str "/bin"] : List Str),
          fsFifo.isfile (joinpath d (str "mypipe")) = false) := by
  constructor
  · decide
  · decide

/-- C4 amended: every name returned by `get_commands` corresponds to an
entry of some directory of the search path whose joined path was not a
directory (hence in particular not a symlink to a directory) and passed the
execute-permission check for the current user at scan time — but it need
not be a regular file. -/
theorem get_commands_sound (fs : FS) (path : List Str) (name : Str)
    (h : name ∈ get_commands fs path) :
    ∃ d, d ∈ path ∧ fs.isdir d = true ∧ name ∈ fs.listdir d
      ∧ fs.isdir (joinpath d name) = false
      ∧ fs.access (joinpath d name) = true := by
  obtain ⟨d, hd, hdir, hmem⟩ := (mem_get_commands fs path name).mp h
  rw [dirCommands, List.mem_filter] at hmem
  obtain ⟨hlist, hpred⟩ := hmem
  simp only [Bool.and_eq_true, Bool.not_eq_true'] at hpred
  exact ⟨d, hd, hdir, hlist, hpred.1, hpred.2⟩

/-- Witness for C4 (amended): the name `ls` returned on the `/bin`
snapshot. -/
theorem get_commands_sound_witness :
    str "ls" ∈ get_commands fsBin [str "/bin"]
      ∧ ∃ d, d ∈ ([str "/bin"] : List Str) ∧ fsBin.isdir d = true
          ∧ str "ls" ∈ fsBin.listdir d
          ∧ fsBin.isdir (joinpath d (str "ls")) = false
          ∧ fsBin.access (joinpath d (str "ls")) = true :=
  ⟨by decide, get_commands_sound fsBin [str "/bin"] (str "ls") (by decide)⟩

/-! ## C8: duplicate and invalid path entries -/

/-- The scan of `get_commands` factors through `scannedDirs`: `os.listdir`
is invoked exactly on the path entries that pass `isdir`, one invocation
per occurrence. -/
theorem get_commands_eq_scannedDirs (fs : FS) (path : List Str) :
    get_commands fs path
      = List.insertionSort (· ≤ ·)
          (((scannedDirs fs path).flatMap (dirCommands fs)).dedup) := by
  unfold get_commands scannedDirs
  congr 2
  induction path with
  | nil => rfl
  | cons d rest ih =>
      by_cases hdir : fs.isdir d = true
      · simp [hdir, ih]
      · simp [hdir, ih]

/-- C8 is refuted on the code: `get_path` performs no deduplication, so with
shell output `"/bin:/bin\n"` the directory `/bin` appears twice in the
returned path and is scanned twice (two `os.listdir` calls), not at most
once. -/
theorem duplicate_dirs_scanned_twice :
    get_path (str "/bin:/bin\n") (str "/home/user") = [str "/bin", str "/bin"]
      ∧ scannedDirs fsBin (get_path (str "/bin:/bin\n") (str "/home/user"))
          = [str "/bin", str "/bin"]
      ∧ ¬ (get_path (str "/bin:/bin\n") (str "/home/user")).Nodup := by
  refine ⟨by decide, by decide, by decide⟩

/-- C8 amended: duplicate path entries are not removed before scanning —
each occurrence is scanned — but the final command list is unaffected: it
equals the result on the deduplicated path; and path entries that are not
directories (including non-existent ones, for which `os.path.isdir` is
false) are skipped, contributing nothing. -/
theorem get_commands_path_dedup (fs : FS) (path : List Str) :
    get_commands fs path = get_commands fs path.dedup
      ∧ ∀ d, fs.isdir d = false →
          get_commands fs (d :: path) = get_commands fs path := by
  constructor
  · have hperm :
        List.Perm
          (path.flatMap (fun dirname =>
            if fs.isdir dirname then dirCommands fs dirname else [])).dedup
          (path.dedup.flatMap (fun dirname =>
              if fs.isdir dirname then dirCommands fs dirname else [])).dedup := by
      refine (List.perm_ext_iff_of_nodup (List.nodup_dedup _)
        (List.nodup_dedup _)).mpr ?_
      intro a
      simp [List.mem_dedup, List.mem_flatMap]
    exact List.eq_of_perm_of_sorted
      ((List.perm_insertionSort _ _).trans
        (hperm.trans (List.perm_insertionSort _ _).symm))
      (List.sorted_insertionSort _ _) (List.sorted_insertionSort _ _)
  · intro d hdir
    simp [get_commands, hdir]

/-- Witness for C8 (amended): a non-directory entry `/nope` prepended to the
path leaves the result on the `/bin` snapshot unchanged. -/
theorem get_commands_path_dedup_witness :
    fsBin.isdir (str "/nope") = false
      ∧ get_commands fsBin (str "/nope" :: [str "/bin"])
          = get_commands fsBin [str "/bin"] :=
  ⟨by decide,
   (get_commands_path_dedup fsBin [str "/bin"]).2 (str "/nope") (by decide)⟩
